import Mathlib

/- Verification of the minidbg-style debugger engine (src/src/debugger.cpp).
   The engine is shallowly embedded: the tracee (registers, memory) is explicit
   state, the kernel/tracee behaviour behind ptrace resume requests is an
   oracle parameter, and every fallible engine operation returns Except. -/

-- ===== basic machine types =====

abbrev Addr := Nat

def wordMod : Nat := 2 ^ 64

def int3 : Nat := 0xCC

-- signal numbers and si_code values (Linux x86-64)
def SIGTRAP : Nat := 5
def SIGSEGV : Nat := 11
def SI_KERNEL : Int := 128
def TRAP_BRKPT : Int := 1
def TRAP_TRACE : Int := 2

-- ===== register file =====

/-- Register identifiers. Modelled from the spec: registers.h is not under
    src/; the spec (sections 2 and 3) fixes 27 descriptors whose order matches
    the kernel user-area register layout. -/
inductive reg where
  | r15 | r14 | r13 | r12 | rbp | rbx | r11 | r10
  | r9 | r8 | rax | rcx | rdx | rsi | rdi
  | orig_rax | rip | cs | eflags | rsp | ss
  | fs_base | gs_base | ds | es | fs | gs
deriving DecidableEq

structure reg_descriptor where
  r : reg
  dwarf_r : Int
  name : String
deriving DecidableEq

/-- Register descriptor table. Modelled from the spec: the fixed ordered
    sequence of 27 descriptors (user-area order, DWARF number, name). -/
def g_register_descriptors : List reg_descriptor :=
  [⟨reg.r15, 15, "r15"⟩, ⟨reg.r14, 14, "r14"⟩, ⟨reg.r13, 13, "r13"⟩,
   ⟨reg.r12, 12, "r12"⟩, ⟨reg.rbp, 6, "rbp"⟩, ⟨reg.rbx, 3, "rbx"⟩,
   ⟨reg.r11, 11, "r11"⟩, ⟨reg.r10, 10, "r10"⟩, ⟨reg.r9, 9, "r9"⟩,
   ⟨reg.r8, 8, "r8"⟩, ⟨reg.rax, 0, "rax"⟩, ⟨reg.rcx, 2, "rcx"⟩,
   ⟨reg.rdx, 1, "rdx"⟩, ⟨reg.rsi, 4, "rsi"⟩, ⟨reg.rdi, 5, "rdi"⟩,
   ⟨reg.orig_rax, -1, "orig_rax"⟩, ⟨reg.rip, -1, "rip"⟩,
   ⟨reg.cs, 51, "cs"⟩, ⟨reg.eflags, 49, "eflags"⟩, ⟨reg.rsp, 7, "rsp"⟩,
   ⟨reg.ss, 52, "ss"⟩, ⟨reg.fs_base, 58, "fs_base"⟩,
   ⟨reg.gs_base, 59, "gs_base"⟩, ⟨reg.ds, 53, "ds"⟩, ⟨reg.es, 50, "es"⟩,
   ⟨reg.fs, 54, "fs"⟩, ⟨reg.gs, 55, "gs"⟩]

/-- Tracee machine state: the user-area register block and word-granular
    memory (one 64-bit word per address, as read/written by
    PTRACE_PEEKDATA/POKEDATA in the source). -/
structure TraceeState where
  regs : reg → Nat
  mem : Addr → Nat

/-- Modelled from the spec: registers.h get_register_value reads the register
    block and indexes by descriptor position. -/
def get_register_value (t : TraceeState) (r : reg) : Nat := t.regs r

/-- Modelled from the spec: registers.h set_register_value overwrites one word
    of the register block. -/
def set_register_value (t : TraceeState) (r : reg) (v : Nat) : TraceeState :=
  { t with regs := fun x => if x = r then v % wordMod else t.regs x }

/-- Modelled from the spec: registers.h get_register_from_name, a linear scan
    of the descriptor table. An unmatched name is undefined behaviour in the
    source (end-iterator dereference); the model reports it as none. -/
def get_register_from_name (name : String) : Option reg :=
  (g_register_descriptors.find? (fun d => d.name == name)).map (fun d => d.r)

def mem_write (t : TraceeState) (a : Addr) (v : Nat) : TraceeState :=
  { t with mem := fun x => if x = a then v % wordMod else t.mem x }

structure siginfo_t where
  si_signo : Nat
  si_code : Int
deriving DecidableEq

-- ===== breakpoint =====

/-- Breakpoint record. Modelled from the spec: breakpoint.h is not under src/;
    the spec (section 3) gives pid, addr, enabled, saved_byte (the pid is held
    by the engine here). -/
structure breakpoint where
  addr : Addr
  enabled : Bool
  saved_byte : Nat
deriving DecidableEq

-- replace the low byte of a word, keeping the upper 7 bytes
def patch_byte (w b : Nat) : Nat := w - w % 256 + b % 256

-- ===== DWARF / ELF facade =====

structure line_entry where
  address : Addr
  path : String
  line : Nat
  is_stmt : Bool
deriving DecidableEq

def dummy_entry : line_entry := ⟨0, "", 0, false⟩

structure DIE where
  tag_subprogram : Bool
  die_name : Option String
  low_pc : Addr
  high_pc : Addr
deriving DecidableEq

structure CompilationUnit where
  dies : List DIE
  lineTable : List line_entry
  low : Addr
  high : Addr
deriving DecidableEq

structure DwarfInfo where
  cus : List CompilationUnit
deriving DecidableEq

/-- Forward line-table iterator: the table of the compilation unit it came
    from plus the current index. -/
structure LineIter where
  table : List line_entry
  idx : Nat
deriving DecidableEq

def LineIter.entry (it : LineIter) : line_entry := it.table.getD it.idx dummy_entry

def die_contains (d : DIE) (pc : Addr) : Bool := decide (d.low_pc ≤ pc) && decide (pc < d.high_pc)

def cu_contains (cu : CompilationUnit) (pc : Addr) : Bool := decide (cu.low ≤ pc) && decide (pc < cu.high)

def list_concat {α : Type} : List (List α) → List α
  | [] => []
  | l :: ls => l ++ list_concat ls

/-- Modelled from the spec: libelfin line_table.find_address(pc) yields the
    entry covering pc, that is the last entry whose address is at most pc
    (the iterator is ordered by address); end() when pc precedes the table. -/
def find_address (lt : List line_entry) (pc : Addr) : Option Nat :=
  ((List.range lt.length).filter (fun i => decide ((lt.getD i dummy_entry).address ≤ pc))).getLast?

-- ELF symbol model (debugger.cpp uses sections / symtabs of libelfin)
structure elf_symbol where
  sym_name : String
  stt : Nat
  value : Addr
deriving DecidableEq

structure elf_section where
  sht : Nat
  symtab : List elf_symbol
deriving DecidableEq

structure ElfInfo where
  sections : List elf_section
deriving DecidableEq

def sht_symtab : Nat := 2
def sht_dynsym : Nat := 11

-- debugger.cpp:12 symbol_type and conversions; the Lean keyword forces the
-- constructor name sect for elf section symbols
inductive symbol_type where
  | notype | object | func | sect | file
deriving DecidableEq

-- debugger.cpp:27 to_symbol_type (elf::stt values notype 0, object 1, func 2,
-- section 3, file 4; default notype)
def to_symbol_type (n : Nat) : symbol_type :=
  if n = 0 then symbol_type.notype
  else if n = 1 then symbol_type.object
  else if n = 2 then symbol_type.func
  else if n = 3 then symbol_type.sect
  else if n = 4 then symbol_type.file
  else symbol_type.notype

structure symbol where
  type : symbol_type
  name : String
  addr : Addr
deriving DecidableEq

-- ===== engine state, events, errors =====

/-- Observable actions of the engine: tracee resume requests, breakpoint
    byte-patching, and everything the engine prints. -/
inductive Event where
  | resumeCont
  | resumeStep
  | waited
  | bpDisabled (a : Addr)
  | bpEnabled (a : Addr)
  | printHit (a : Addr)
  | printSource (path : String) (line : Nat)
  | printSegfault (code : Int)
  | printSignal (signo : Nat)
  | printUnknownTrap (code : Int)
  | printSetBp (a : Addr)
  | printRegValue (v : Nat)
  | printReg (name : String) (v : Nat)
  | printMemValue (v : Nat)
  | printSymbol (s : symbol)
  | printUnknownCommand
deriving DecidableEq

def Event.isPrint : Event → Bool
  | Event.resumeCont => false
  | Event.resumeStep => false
  | Event.waited => false
  | Event.bpDisabled _ => false
  | Event.bpEnabled _ => false
  | _ => true

/-- Errors: std::out_of_range thrown by the engine or by map::at,
    out-of-bounds indexing (undefined behaviour in the C++ made explicit),
    an unmatched register name (undefined behaviour in registers.h),
    iterator advancement past the end, and fuel exhaustion of the model for
    the source's unbounded step_in loop. -/
inductive DbgErr where
  | outOfRange (msg : String)
  | oobIndex (i : Nat)
  | unknownRegister (name : String)
  | iterEnd
  | outOfFuel
deriving DecidableEq

/-- Engine state: debugger.cpp members m_pid, m_breakpoints, m_dwarf, m_elf,
    plus the tracee machine state, the siginfo of the last stop, and the
    event trace. -/
structure Dbg where
  m_pid : Nat
  m_breakpoints : List (Addr × breakpoint)
  m_dwarf : DwarfInfo
  m_elf : ElfInfo
  tracee : TraceeState
  lastSig : siginfo_t
  events : List Event

-- association-list model of std::unordered_map<std::intptr_t, breakpoint>
def mapLookup (a : Addr) : List (Addr × breakpoint) → Option breakpoint
  | [] => none
  | p :: m => if p.1 = a then some p.2 else mapLookup a m

def mapCount (a : Addr) (m : List (Addr × breakpoint)) : Bool :=
  (mapLookup a m).isSome

-- std::unordered_map insert does not overwrite an existing key
def mapInsert (a : Addr) (bp : breakpoint) (m : List (Addr × breakpoint)) : List (Addr × breakpoint) :=
  if mapCount a m then m else (a, bp) :: m

def mapErase (a : Addr) : List (Addr × breakpoint) → List (Addr × breakpoint)
  | [] => []
  | p :: m => if p.1 = a then mapErase a m else p :: mapErase a m

def mapUpdate (a : Addr) (f : breakpoint → breakpoint) : List (Addr × breakpoint) → List (Addr × breakpoint)
  | [] => []
  | p :: m => (if p.1 = a then (p.1, f p.2) else p) :: mapUpdate a f m

def emit (e : Event) (st : Dbg) : Dbg := { st with events := st.events ++ [e] }

-- ===== tracee control =====

inductive ResumeKind where
  | contK
  | stepK
deriving DecidableEq

/-- Oracle for the traced program: what state and stop signal the kernel
    reports after a PTRACE_CONT or PTRACE_SINGLESTEP request. -/
def KernelModel : Type := ResumeKind → TraceeState → TraceeState × siginfo_t

def ptrace_resume (K : KernelModel) (k : ResumeKind) (st : Dbg) : Dbg :=
  let r := K k st.tracee
  { st with
    tracee := r.1
    lastSig := r.2
    events := st.events ++ [(match k with
      | ResumeKind.contK => Event.resumeCont
      | ResumeKind.stepK => Event.resumeStep)] }

-- debugger.cpp:159 read_memory (PTRACE_PEEKDATA)
def read_memory (address : Addr) (st : Dbg) : Nat := st.tracee.mem address

-- debugger.cpp:163 write_memory (PTRACE_POKEDATA)
def write_memory (address : Addr) (value : Nat) (st : Dbg) : Dbg :=
  { st with tracee := mem_write st.tracee address value }

-- debugger.cpp:167 get_pc
def get_pc (st : Dbg) : Nat := get_register_value st.tracee reg.rip

-- debugger.cpp:171 set_pc
def set_pc (pc : Nat) (st : Dbg) : Dbg :=
  { st with tracee := set_register_value st.tracee reg.rip pc }

-- uint64 decrement by one, as in get_pc() - 1
def pc_dec (pc : Nat) : Nat := (pc + (wordMod - 1)) % wordMod

-- ===== breakpoint arm / disarm on the engine state =====

/-- Modelled from the spec: breakpoint::enable reads the word at addr, saves
    its low byte, writes the word back with the low byte replaced by 0xCC and
    sets enabled; applied here to the map entry at key a. -/
def bp_enable_at (a : Addr) (st : Dbg) : Dbg :=
  match mapLookup a st.m_breakpoints with
  | none => st
  | some _ =>
    let w := st.tracee.mem a
    { st with
      tracee := mem_write st.tracee a (patch_byte w int3),
      m_breakpoints := mapUpdate a (fun b => { b with enabled := true, saved_byte := w % 256 }) st.m_breakpoints,
      events := st.events ++ [Event.bpEnabled a] }

/-- Modelled from the spec: breakpoint::disable restores the saved low byte
    of the word at addr and clears enabled; applied to the map entry at a. -/
def bp_disable_at (a : Addr) (st : Dbg) : Dbg :=
  match mapLookup a st.m_breakpoints with
  | none => st
  | some bp =>
    let w := st.tracee.mem a
    { st with
      tracee := mem_write st.tracee a (patch_byte w bp.saved_byte),
      m_breakpoints := mapUpdate a (fun b => { b with enabled := false }) st.m_breakpoints,
      events := st.events ++ [Event.bpDisabled a] }

-- debugger.cpp:139 set_breakpoint_at_address: print, construct, enable, insert
def set_breakpoint_at_address (a : Addr) (st : Dbg) : Dbg :=
  let st1 := emit (Event.printSetBp a) st
  let w := st1.tracee.mem a
  let bp : breakpoint := { addr := a, enabled := true, saved_byte := w % 256 }
  { st1 with
    tracee := mem_write st1.tracee a (patch_byte w int3),
    m_breakpoints := mapInsert a bp st1.m_breakpoints,
    events := st1.events ++ [Event.bpEnabled a] }

-- debugger.cpp:333 remove_breakpoint: map::at throws std::out_of_range on a
-- missing key; disable if enabled, then erase
def remove_breakpoint (a : Addr) (st : Dbg) : Except DbgErr Dbg :=
  match mapLookup a st.m_breakpoints with
  | none => Except.error (DbgErr.outOfRange "map at")
  | some bp =>
    let st1 := if bp.enabled then bp_disable_at a st else st
    Except.ok { st1 with m_breakpoints := mapErase a st1.m_breakpoints }

-- ===== DWARF queries =====

-- debugger.cpp:208 get_function_from_pc: scan compilation units containing
-- pc, then their DIEs for a subprogram whose pc range contains pc
def get_function_from_pc (d : DwarfInfo) (pc : Addr) : Except DbgErr DIE :=
  match (list_concat ((d.cus.filter (fun cu => cu_contains cu pc)).map (fun cu => cu.dies))).find?
      (fun die => die.tag_subprogram && die_contains die pc) with
  | some die => Except.ok die
  | none => Except.error (DbgErr.outOfRange "cannot find function")

-- debugger.cpp:225 get_line_entry_from_pc: first compilation unit containing
-- pc, then its line table; throws when no unit or no entry covers pc
def get_line_entry_from_pc (d : DwarfInfo) (pc : Addr) : Except DbgErr LineIter :=
  match d.cus.find? (fun cu => cu_contains cu pc) with
  | none => Except.error (DbgErr.outOfRange "cannot find line entry")
  | some cu =>
    match find_address cu.lineTable pc with
    | none => Except.error (DbgErr.outOfRange "cannot find line entry")
    | some i => Except.ok ⟨cu.lineTable, i⟩

-- ===== signal handling =====

-- debugger.cpp:282 handle_sigtrap: on SI_KERNEL or TRAP_BRKPT put the pc back
-- one byte, print the hit address and the source line there; TRAP_TRACE is a
-- single-step completion and takes no action; other codes are reported.
-- print_source itself (a file-reader utility, out of scope per the spec) is
-- recorded as the printSource event carrying its arguments.
def handle_sigtrap (info : siginfo_t) (st : Dbg) : Except DbgErr Dbg :=
  if info.si_code = SI_KERNEL ∨ info.si_code = TRAP_BRKPT then
    let st1 := set_pc (pc_dec (get_pc st)) st
    let st2 := emit (Event.printHit (get_pc st1)) st1
    match get_line_entry_from_pc st2.m_dwarf (get_pc st2) with
    | Except.error e => Except.error e
    | Except.ok it => Except.ok (emit (Event.printSource it.entry.path it.entry.line) st2)
  else if info.si_code = TRAP_TRACE then Except.ok st
  else Except.ok (emit (Event.printUnknownTrap info.si_code) st)

-- debugger.cpp:188 wait_for_signal: waitpid, then dispatch on the signal of
-- the stop (PTRACE_GETSIGINFO is the lastSig recorded at resume time)
def wait_for_signal (st : Dbg) : Except DbgErr Dbg :=
  let st1 := emit Event.waited st
  if st1.lastSig.si_signo = SIGTRAP then handle_sigtrap st1.lastSig st1
  else if st1.lastSig.si_signo = SIGSEGV then
    Except.ok (emit (Event.printSegfault st1.lastSig.si_code) st1)
  else Except.ok (emit (Event.printSignal st1.lastSig.si_signo) st1)

-- ===== stepping primitives =====

-- debugger.cpp:175 step_over_breakpoint
def step_over_breakpoint (K : KernelModel) (st : Dbg) : Except DbgErr Dbg :=
  if mapCount (get_pc st) st.m_breakpoints then
    match mapLookup (get_pc st) st.m_breakpoints with
    | none => Except.ok st
    | some bp =>
      if bp.enabled then
        (wait_for_signal (ptrace_resume K ResumeKind.stepK (bp_disable_at (get_pc st) st))).map
          (bp_enable_at (get_pc st))
      else Except.ok st
  else Except.ok st

-- debugger.cpp:133 continue_execution
def continue_execution (K : KernelModel) (st : Dbg) : Except DbgErr Dbg := do
  let st1 ← step_over_breakpoint K st
  wait_for_signal (ptrace_resume K ResumeKind.contK st1)

-- debugger.cpp:301 single_step_instruction
def single_step_instruction (K : KernelModel) (st : Dbg) : Except DbgErr Dbg :=
  wait_for_signal (ptrace_resume K ResumeKind.stepK st)

-- debugger.cpp:306 single_step_instruction_with_breakpoint_check
def single_step_instruction_with_breakpoint_check (K : KernelModel) (st : Dbg) : Except DbgErr Dbg :=
  if mapCount (get_pc st) st.m_breakpoints then step_over_breakpoint K st
  else single_step_instruction K st

-- debugger.cpp:316 step_out
def step_out (K : KernelModel) (st : Dbg) : Except DbgErr Dbg :=
  let fp := get_register_value st.tracee reg.rbp
  let ret := read_memory ((fp + 8) % wordMod) st
  if mapCount ret st.m_breakpoints then continue_execution K st
  else do
    let st1 := set_breakpoint_at_address ret st
    let st2 ← continue_execution K st1
    remove_breakpoint ret st2

-- debugger.cpp:361 the while loop of step_over: walk the line table from the
-- function entry while the address is below func_end, installing a breakpoint
-- at every address that is not the starting line's and has none yet
def installLoop (entries : List line_entry) (fe sa : Addr) (st : Dbg) (acc : List Addr) : Dbg × List Addr :=
  match entries with
  | [] => (st, acc)
  | e :: rest =>
    if e.address < fe then
      if e.address ≠ sa ∧ mapCount e.address st.m_breakpoints = false then
        installLoop rest fe sa (set_breakpoint_at_address e.address st) (acc ++ [e.address])
      else installLoop rest fe sa st acc
    else (st, acc)

-- the for loop of debugger.cpp:379 removing the collected addresses
def remove_all : List Addr → Dbg → Except DbgErr Dbg
  | [], st => Except.ok st
  | a :: rest, st => do
    let st1 ← remove_breakpoint a st
    remove_all rest st1

-- debugger.cpp:351 step_over up to and including continue_execution; the
-- second component is the to_delete vector of the source
def step_over_core (K : KernelModel) (st : Dbg) : Except DbgErr (Dbg × List Addr) := do
  let func ← get_function_from_pc st.m_dwarf (get_pc st)
  let it ← get_line_entry_from_pc st.m_dwarf func.low_pc
  let startIt ← get_line_entry_from_pc st.m_dwarf (get_pc st)
  let p := installLoop (it.table.drop it.idx) func.high_pc startIt.entry.address st []
  let fp := get_register_value p.1.tracee reg.rbp
  let ret := read_memory ((fp + 8) % wordMod) p.1
  let p2 := if mapCount ret p.1.m_breakpoints then p
            else (set_breakpoint_at_address ret p.1, p.2 ++ [ret])
  let stC ← continue_execution K p2.1
  pure (stC, p2.2)

-- debugger.cpp:351 step_over
def step_over (K : KernelModel) (st : Dbg) : Except DbgErr Dbg := do
  let r ← step_over_core K st
  remove_all r.2 r.1

-- the while loop of debugger.cpp:343, fuel-bounded (the source loop is
-- unbounded); checks the line of the current pc, then steps
def step_in_loop (K : KernelModel) : Nat → Nat → Dbg → Except DbgErr Dbg
  | 0, _, _ => Except.error DbgErr.outOfFuel
  | fuel + 1, line, st => do
    let it ← get_line_entry_from_pc st.m_dwarf (get_pc st)
    if it.entry.line = line then
      let st1 ← single_step_instruction_with_breakpoint_check K st
      step_in_loop K fuel line st1
    else Except.ok st

-- debugger.cpp:340 step_in
def step_in (K : KernelModel) (fuel : Nat) (st : Dbg) : Except DbgErr Dbg := do
  let it ← get_line_entry_from_pc st.m_dwarf (get_pc st)
  let st1 ← step_in_loop K fuel it.entry.line st
  let it2 ← get_line_entry_from_pc st1.m_dwarf (get_pc st1)
  pure (emit (Event.printSource it2.entry.path it2.entry.line) st1)

-- ===== breakpoint placement by line / function, symbols, registers =====

-- the compilation-unit loop of debugger.cpp:397: within one unit the entry
-- loop with early return is a first-match search
def sbsl_go (line : Nat) (st : Dbg) : List CompilationUnit → Dbg
  | [] => st
  | cu :: rest =>
    match cu.lineTable.find? (fun e => e.is_stmt && e.line == line) with
    | some e => set_breakpoint_at_address e.address st
    | none => sbsl_go line st rest

-- debugger.cpp:397 set_breakpoint_at_source_line (the file argument is part
-- of the source signature)
def set_breakpoint_at_source_line (file : String) (line : Nat) (st : Dbg) : Dbg :=
  sbsl_go line st st.m_dwarf.cus

-- debugger.cpp:384 set_breakpoint_at_function: per matching DIE, take the
-- line entry of its low pc, advance one entry past it, break there;
-- advancing past the table end is undefined behaviour, reported as iterEnd
def sbaf_die (name : String) (die : DIE) (st : Dbg) : Except DbgErr Dbg :=
  match die.die_name with
  | none => Except.ok st
  | some n =>
    if n == name then
      match get_line_entry_from_pc st.m_dwarf die.low_pc with
      | Except.error e => Except.error e
      | Except.ok it =>
        match it.table.get? (it.idx + 1) with
        | none => Except.error DbgErr.iterEnd
        | some e => Except.ok (set_breakpoint_at_address e.address st)
    else Except.ok st

def sbaf_dies (name : String) : List DIE → Dbg → Except DbgErr Dbg
  | [], st => Except.ok st
  | d :: ds, st => do
    let st1 ← sbaf_die name d st
    sbaf_dies name ds st1

def set_breakpoint_at_function (name : String) (st : Dbg) : Except DbgErr Dbg :=
  sbaf_dies name (list_concat (st.m_dwarf.cus.map (fun cu => cu.dies))) st

-- debugger.cpp:146 dump_registers
def dump_registers (st : Dbg) : Dbg :=
  g_register_descriptors.foldl
    (fun s d => emit (Event.printReg d.name (get_register_value s.tracee d.r)) s) st

-- debugger.cpp:410 lookup_symbol: exact-name matches over symtab and dynsym
def lookup_symbol (name : String) (st : Dbg) : List symbol :=
  (list_concat
    (((st.m_elf.sections.filter (fun s => s.sht == sht_symtab || s.sht == sht_dynsym))).map
      (fun s => s.symtab.filter (fun sym => sym.sym_name == name)))).map
    (fun sym => ⟨to_symbol_type sym.stt, sym.sym_name, sym.value⟩)

-- ===== command dispatch =====

-- debugger.cpp:126 is_prefix: s no longer than of and equal on s's length
def is_prefix (s of : String) : Bool := s.data.isPrefixOf of.data

-- character-level worker for split: emit the token collected in acc at each
-- delimiter and at the end of input; a delimiter that ends the input ends the
-- token stream (std::getline fails at end of file)
def split_go (delim : Char) : List Char → List Char → List String
  | [], acc => [String.mk acc.reverse]
  | c :: rest, acc =>
    if c = delim then
      if rest = [] then [String.mk acc.reverse]
      else String.mk acc.reverse :: split_go delim rest []
    else split_go delim rest (c :: acc)

-- debugger.cpp:114 split: std::getline over the string; an empty input gives
-- no items and a trailing delimiter yields no trailing empty item
def split (s : String) (delim : Char) : List String :=
  match s.data with
  | [] => []
  | l => split_go delim l []

def strDrop (s : String) (n : Nat) : String := String.mk (s.data.drop n)

-- std::string operator[] at position size() reads a NUL; the model extends
-- that default past the end
def strChar (s : String) (i : Nat) : Char := s.data.getD i (Char.ofNat 0)

def hex_digit (c : Char) : Nat :=
  if '0'.toNat ≤ c.toNat ∧ c.toNat ≤ '9'.toNat then c.toNat - '0'.toNat
  else if 'a'.toNat ≤ c.toNat ∧ c.toNat ≤ 'f'.toNat then c.toNat - 'a'.toNat + 10
  else if 'A'.toNat ≤ c.toNat ∧ c.toNat ≤ 'F'.toNat then c.toNat - 'A'.toNat + 10
  else 0

-- std::stol with base 16 on the already-0x-stripped string
def parseHex (s : String) : Nat := s.data.foldl (fun acc c => acc * 16 + hex_digit c) 0

-- std::stoi base 10
def parseDec (s : String) : Nat := s.data.foldl (fun acc c => acc * 10 + (c.toNat - '0'.toNat)) 0

-- debugger.cpp:59 handle_command. Vector indexing past the end is undefined
-- behaviour in the source; the model makes every args[i] access explicit and
-- reports an out-of-bounds access as oobIndex i. The branch structure,
-- including the misplaced register read/write arms that test args[1] before
-- the command word has matched memory, follows the source exactly.
def handle_command (K : KernelModel) (fuel : Nat) (line : String) (st : Dbg) : Except DbgErr Dbg :=
  let args := split line ' '
  match args.get? 0 with
  | none => Except.error (DbgErr.oobIndex 0)
  | some command =>
    if is_prefix command "cont" then continue_execution K st
    else if is_prefix command "break" then
      match args.get? 1 with
      | none => Except.error (DbgErr.oobIndex 1)
      | some a1 =>
        if strChar a1 0 = '0' ∧ strChar a1 1 = 'x' then
          Except.ok (set_breakpoint_at_address (parseHex (strDrop a1 2)) st)
        else if a1.data.contains ':' then
          match (split a1 ':').get? 0, (split a1 ':').get? 1 with
          | some f, some ln => Except.ok (set_breakpoint_at_source_line f (parseDec ln) st)
          | _, _ => Except.error (DbgErr.oobIndex 1)
        else set_breakpoint_at_function a1 st
    else if is_prefix command "step" then step_in K fuel st
    else if is_prefix command "next" then step_over K st
    else if is_prefix command "finish" then step_out K st
    else if is_prefix command "register" then
      match args.get? 1 with
      | none => Except.error (DbgErr.oobIndex 1)
      | some a1 => if is_prefix a1 "dump" then Except.ok (dump_registers st) else Except.ok st
    else
      match args.get? 1 with
      | none => Except.error (DbgErr.oobIndex 1)
      | some a1 =>
        if is_prefix a1 "read" then
          match args.get? 2 with
          | none => Except.error (DbgErr.oobIndex 2)
          | some a2 =>
            match get_register_from_name a2 with
            | none => Except.error (DbgErr.unknownRegister a2)
            | some r => Except.ok (emit (Event.printRegValue (get_register_value st.tracee r)) st)
        else if is_prefix a1 "write" then
          match args.get? 3 with
          | none => Except.error (DbgErr.oobIndex 3)
          | some a3 =>
            match args.get? 2 with
            | none => Except.error (DbgErr.oobIndex 2)
            | some a2 =>
              match get_register_from_name a2 with
              | none => Except.error (DbgErr.unknownRegister a2)
              | some r =>
                Except.ok { st with tracee := set_register_value st.tracee r (parseHex (strDrop a3 2)) }
        else if is_prefix command "memory" then
          match args.get? 2 with
          | none => Except.error (DbgErr.oobIndex 2)
          | some a2 =>
            let addr := parseHex (strDrop a2 2)
            let st1 := if is_prefix a1 "read" then emit (Event.printMemValue (read_memory addr st)) st else st
            if is_prefix a1 "write" then
              match args.get? 3 with
              | none => Except.error (DbgErr.oobIndex 3)
              | some a3 => Except.ok (write_memory addr (parseHex (strDrop a3 2)) st1)
            else Except.ok st1
        else if is_prefix command "symbol" then
          Except.ok ((lookup_symbol a1 st).foldl (fun s sym => emit (Event.printSymbol sym) s) st)
        else if is_prefix command "stepi" then
          match single_step_instruction_with_breakpoint_check K st with
          | Except.error e => Except.error e
          | Except.ok st1 =>
            match get_line_entry_from_pc st1.m_dwarf (get_pc st1) with
            | Except.error e => Except.error e
            | Except.ok it => Except.ok (emit (Event.printSource it.entry.path it.entry.line) st1)
        else Except.ok (emit Event.printUnknownCommand st)

-- debugger.cpp:45 run: the prompt loop feeds each input line to
-- handle_command; an exception escaping handle_command is not caught and
-- terminates the loop, which the model renders as error propagation
def runLines (K : KernelModel) (fuel : Nat) : List String → Dbg → Except DbgErr Dbg
  | [], st => Except.ok st
  | l :: ls, st => do
    let st1 ← handle_command K fuel l st
    runLines K fuel ls st1

-- ===== derived descriptions used in claim statements =====

-- the memory slot holding the return address: frame_pointer + 8
def ret_slot (st : Dbg) : Addr := (get_register_value st.tracee reg.rbp + 8) % wordMod

-- the return address step_over and step_out read from that slot
def ret_addr (st : Dbg) : Nat := st.tracee.mem (ret_slot st)

-- the address of the line entry for the current pc
def start_addr (st : Dbg) : Addr :=
  match get_line_entry_from_pc st.m_dwarf (get_pc st) with
  | Except.ok it => it.entry.address
  | Except.error _ => 0

-- the line-table entries step_over walks: from the entry of the enclosing
-- function's low pc while the address is below its high pc
def segment_entries (st : Dbg) : List line_entry :=
  match get_function_from_pc st.m_dwarf (get_pc st) with
  | Except.error _ => []
  | Except.ok func =>
    match get_line_entry_from_pc st.m_dwarf func.low_pc with
    | Except.error _ => []
    | Except.ok it => (it.table.drop it.idx).takeWhile (fun e => decide (e.address < func.high_pc))

-- n-fold iteration of the checked single step, for the step_in claim
def sswbc_iter (K : KernelModel) : Nat → Dbg → Except DbgErr Dbg
  | 0, st => Except.ok st
  | n + 1, st => do
    let st1 ← single_step_instruction_with_breakpoint_check K st
    sswbc_iter K n st1

-- ===== concrete instances for evaluation =====

def entryA : line_entry := ⟨0x1000, "a.c", 1, true⟩
def entryB : line_entry := ⟨0x1008, "a.c", 2, true⟩
def entryC : line_entry := ⟨0x1010, "a.c", 3, true⟩
def entryZ : line_entry := ⟨0x1020, "a.c", 3, false⟩

def mainDie : DIE := ⟨true, some "main", 0x1000, 0x1020⟩

def cu0 : CompilationUnit :=
  { dies := [mainDie], lineTable := [entryA, entryB, entryC, entryZ],
    low := 0x1000, high := 0x1020 }

def dwarf0 : DwarfInfo := ⟨[cu0]⟩

def dwarfE : DwarfInfo := ⟨[]⟩

def elf0 : ElfInfo := ⟨[]⟩

def regs0 : reg → Nat := fun r =>
  if r = reg.rip then 0x1000 else if r = reg.rbp then 0x7000 else 0

def mem0 : Addr → Nat := fun a => if a = 0x7008 then 0x2000 else 0x90

def tracee0 : TraceeState := ⟨regs0, mem0⟩

def sigNone : siginfo_t := ⟨0, 0⟩

def sigStep : siginfo_t := ⟨SIGTRAP, TRAP_TRACE⟩

-- oracle: every resume advances rip by one and stops with a single-step trap
def K0 : KernelModel := fun _ t =>
  ({ t with regs := fun r => if r = reg.rip then (t.regs reg.rip + 1) % wordMod else t.regs r },
   sigStep)

def st0 : Dbg :=
  { m_pid := 42, m_breakpoints := [], m_dwarf := dwarf0, m_elf := elf0,
    tracee := tracee0, lastSig := sigNone, events := [] }

-- pc one past a breakpoint opcode, for the sigtrap fixup claim
def st1009 : Dbg := set_pc 0x1009 st0

def infoBrk : siginfo_t := ⟨SIGTRAP, TRAP_BRKPT⟩

def infoTrace : siginfo_t := ⟨SIGTRAP, TRAP_TRACE⟩

-- an enabled breakpoint installed at the current pc
def bpOn : breakpoint := ⟨0x1000, true, 0x55⟩

def st2 : Dbg := { st0 with m_breakpoints := [(0x1000, bpOn)] }

-- a disabled breakpoint at the current pc
def bpOff : breakpoint := ⟨0x1000, false, 0x55⟩

def st10 : Dbg := { st0 with m_breakpoints := [(0x1000, bpOff)] }

-- state whose debug info is empty, so every line lookup fails
def stE : Dbg := { st0 with m_dwarf := dwarfE }

def c1res : Dbg := (handle_sigtrap infoBrk st1009).toOption.getD st1009

def c2res : Dbg := (step_over_breakpoint K0 st2).toOption.getD st2

def c3core : Dbg × List Addr := (step_over_core K0 st0).toOption.getD (st0, [])

def c3fin : Dbg := (step_over K0 st0).toOption.getD st0

def c4fin : Dbg := (step_out K0 st0).toOption.getD st0

def c6fin : Dbg := (step_in K0 20 st0).toOption.getD st0

-- ===== map lemmas =====

theorem mapLookup_cons (b : Addr) (p : Addr × breakpoint) (m : List (Addr × breakpoint)) :
    mapLookup b (p :: m) = if p.1 = b then some p.2 else mapLookup b m := rfl

theorem mapUpdate_cons (a : Addr) (f : breakpoint → breakpoint) (p : Addr × breakpoint)
    (m : List (Addr × breakpoint)) :
    mapUpdate a f (p :: m) = (if p.1 = a then (p.1, f p.2) else p) :: mapUpdate a f m := rfl

theorem mapErase_cons (a : Addr) (p : Addr × breakpoint) (m : List (Addr × breakpoint)) :
    mapErase a (p :: m) = if p.1 = a then mapErase a m else p :: mapErase a m := rfl

theorem mapCount_iff (a : Addr) (m : List (Addr × breakpoint)) :
    mapCount a m = true ↔ ∃ bp, mapLookup a m = some bp := by
  unfold mapCount
  cases mapLookup a m <;> simp

theorem mapCount_update (b a : Addr) (f : breakpoint → breakpoint) (m : List (Addr × breakpoint)) :
    mapCount b (mapUpdate a f m) = mapCount b m := by
  induction m with
  | nil => rfl
  | cons p m ih =>
    simp only [mapCount] at ih ⊢
    rw [mapUpdate_cons]
    by_cases h : p.1 = a
    · rw [if_pos h, mapLookup_cons, mapLookup_cons]
      by_cases h2 : p.1 = b
      · simp [h2]
      · simp [h2, ih]
    · rw [if_neg h, mapLookup_cons, mapLookup_cons]
      by_cases h2 : p.1 = b
      · simp [h2]
      · simp [h2, ih]

theorem mapLookup_update_self (a : Addr) (f : breakpoint → breakpoint) (m : List (Addr × breakpoint)) :
    mapLookup a (mapUpdate a f m) = (mapLookup a m).map f := by
  induction m with
  | nil => rfl
  | cons p m ih =>
    rw [mapUpdate_cons]
    by_cases h : p.1 = a
    · rw [if_pos h, mapLookup_cons, mapLookup_cons]
      simp [h]
    · rw [if_neg h, mapLookup_cons, mapLookup_cons, if_neg h, if_neg h, ih]

theorem mapLookup_update_ne (b a : Addr) (hne : b ≠ a) (f : breakpoint → breakpoint)
    (m : List (Addr × breakpoint)) :
    mapLookup b (mapUpdate a f m) = mapLookup b m := by
  induction m with
  | nil => rfl
  | cons p m ih =>
    rw [mapUpdate_cons]
    by_cases h : p.1 = a
    · have h2 : ¬ p.1 = b := fun hh => hne (hh ▸ h)
      rw [if_pos h, mapLookup_cons, mapLookup_cons]
      simp [h2, ih]
    · rw [if_neg h, mapLookup_cons, mapLookup_cons, ih]

theorem mapLookup_insert_new (a : Addr) (bp : breakpoint) (m : List (Addr × breakpoint))
    (h : mapCount a m = false) : mapLookup a (mapInsert a bp m) = some bp := by
  unfold mapInsert
  rw [if_neg (by simp [h]), mapLookup_cons, if_pos rfl]

theorem mapCount_insert (b a : Addr) (bp : breakpoint) (m : List (Addr × breakpoint)) :
    mapCount b (mapInsert a bp m) = (decide (b = a) || mapCount b m) := by
  unfold mapInsert
  by_cases h : mapCount a m
  · rw [if_pos h]
    by_cases hba : b = a
    · subst hba
      simp [h]
    · simp [hba]
  · rw [if_neg (by simp [h])]
    simp only [mapCount, mapLookup_cons]
    by_cases hba : a = b
    · subst hba
      simp
    · have h2 : ¬ b = a := fun hh => hba hh.symm
      simp [hba, h2, mapCount]

theorem mapCount_erase (b a : Addr) (m : List (Addr × breakpoint)) :
    mapCount b (mapErase a m) = (!decide (b = a) && mapCount b m) := by
  induction m with
  | nil => simp [mapErase, mapCount, mapLookup]
  | cons p m ih =>
    rw [mapErase_cons]
    by_cases h : p.1 = a
    · rw [if_pos h, ih]
      by_cases hba : b = a
      · simp [hba]
      · have h2 : ¬ p.1 = b := fun hh => hba (hh ▸ h)
        simp [hba, mapCount, mapLookup_cons, h2]
    · rw [if_neg h]
      by_cases h2 : p.1 = b
      · have hba : ¬ b = a := fun hh => h (h2.trans hh)
        simp [mapCount, mapLookup_cons, h2, hba]
      · simp only [mapCount, mapLookup_cons] at ih ⊢
        simp [h2, ih]

-- ===== projection lemmas for elementary engine operations =====

theorem emit_fields (e : Event) (st : Dbg) :
    (emit e st).m_breakpoints = st.m_breakpoints ∧ (emit e st).m_dwarf = st.m_dwarf ∧
    (emit e st).tracee = st.tracee ∧ (emit e st).events = st.events ++ [e] :=
  ⟨rfl, rfl, rfl, rfl⟩

theorem set_pc_fields (pc : Nat) (st : Dbg) :
    (set_pc pc st).m_breakpoints = st.m_breakpoints ∧ (set_pc pc st).m_dwarf = st.m_dwarf ∧
    (set_pc pc st).events = st.events :=
  ⟨rfl, rfl, rfl⟩

theorem get_pc_set_pc (pc : Nat) (st : Dbg) : get_pc (set_pc pc st) = pc % wordMod := by
  simp [get_pc, set_pc, get_register_value, set_register_value]

theorem ptrace_resume_fields (K : KernelModel) (k : ResumeKind) (st : Dbg) :
    (ptrace_resume K k st).m_breakpoints = st.m_breakpoints ∧
    (ptrace_resume K k st).m_dwarf = st.m_dwarf ∧
    (ptrace_resume K k st).events = st.events ++
      [(match k with | ResumeKind.contK => Event.resumeCont | ResumeKind.stepK => Event.resumeStep)] :=
  ⟨rfl, rfl, rfl⟩

theorem bp_disable_at_count (a b : Addr) (st : Dbg) :
    mapCount b (bp_disable_at a st).m_breakpoints = mapCount b st.m_breakpoints := by
  unfold bp_disable_at
  cases h : mapLookup a st.m_breakpoints
  · rfl
  · simp [mapCount_update]

theorem bp_enable_at_count (a b : Addr) (st : Dbg) :
    mapCount b (bp_enable_at a st).m_breakpoints = mapCount b st.m_breakpoints := by
  unfold bp_enable_at
  cases h : mapLookup a st.m_breakpoints
  · rfl
  · simp [mapCount_update]

theorem bp_disable_at_dwarf (a : Addr) (st : Dbg) :
    (bp_disable_at a st).m_dwarf = st.m_dwarf := by
  unfold bp_disable_at
  cases h : mapLookup a st.m_breakpoints <;> rfl

theorem bp_enable_at_dwarf (a : Addr) (st : Dbg) :
    (bp_enable_at a st).m_dwarf = st.m_dwarf := by
  unfold bp_enable_at
  cases h : mapLookup a st.m_breakpoints <;> rfl

theorem bp_disable_at_events (a : Addr) (st : Dbg) (bp : breakpoint)
    (h : mapLookup a st.m_breakpoints = some bp) :
    (bp_disable_at a st).events = st.events ++ [Event.bpDisabled a] := by
  unfold bp_disable_at
  rw [h]

theorem bp_enable_at_events (a : Addr) (st : Dbg) (bp : breakpoint)
    (h : mapLookup a st.m_breakpoints = some bp) :
    (bp_enable_at a st).events = st.events ++ [Event.bpEnabled a] := by
  unfold bp_enable_at
  rw [h]

theorem bp_enable_at_lookup_self (a : Addr) (st : Dbg) (bp : breakpoint)
    (h : mapLookup a st.m_breakpoints = some bp) :
    ∃ bp2, mapLookup a (bp_enable_at a st).m_breakpoints = some bp2 ∧ bp2.enabled = true := by
  have hl : mapLookup a (bp_enable_at a st).m_breakpoints =
      some { bp with enabled := true, saved_byte := st.tracee.mem a % 256 } := by
    unfold bp_enable_at
    rw [h]
    rw [mapLookup_update_self, h]
    rfl
  exact ⟨_, hl, rfl⟩

theorem set_breakpoint_at_address_count (a b : Addr) (st : Dbg) :
    mapCount b (set_breakpoint_at_address a st).m_breakpoints =
      (decide (b = a) || mapCount b st.m_breakpoints) := by
  unfold set_breakpoint_at_address
  simp [mapCount_insert, emit]

theorem set_breakpoint_at_address_dwarf (a : Addr) (st : Dbg) :
    (set_breakpoint_at_address a st).m_dwarf = st.m_dwarf := rfl

theorem set_breakpoint_at_address_regs (a : Addr) (st : Dbg) :
    (set_breakpoint_at_address a st).tracee.regs = st.tracee.regs := rfl

theorem set_breakpoint_at_address_mem_ne (a x : Addr) (st : Dbg) (hx : x ≠ a) :
    (set_breakpoint_at_address a st).tracee.mem x = st.tracee.mem x := by
  unfold set_breakpoint_at_address
  simp [mem_write, emit, hx]

theorem remove_breakpoint_ok_count (a : Addr) (st st2 : Dbg)
    (h : remove_breakpoint a st = Except.ok st2) :
    ∀ b, mapCount b st2.m_breakpoints = (!decide (b = a) && mapCount b st.m_breakpoints) := by
  intro b
  unfold remove_breakpoint at h
  cases hl : mapLookup a st.m_breakpoints with
  | none => rw [hl] at h; exact absurd h (by simp)
  | some bp =>
    rw [hl] at h
    by_cases he : bp.enabled = true
    · simp only [he, if_pos] at h
      cases h
      simp [mapCount_erase, bp_disable_at_count]
    · simp only [Bool.not_eq_true] at he
      simp only [he, Bool.false_eq_true, if_neg, if_false] at h
      cases h
      simp [mapCount_erase]

theorem remove_breakpoint_ok_dwarf (a : Addr) (st st2 : Dbg)
    (h : remove_breakpoint a st = Except.ok st2) : st2.m_dwarf = st.m_dwarf := by
  unfold remove_breakpoint at h
  cases hl : mapLookup a st.m_breakpoints with
  | none => rw [hl] at h; exact absurd h (by simp)
  | some bp =>
    rw [hl] at h
    by_cases he : bp.enabled = true
    · simp only [he, if_pos] at h
      cases h
      simp [bp_disable_at_dwarf]
    · simp only [Bool.not_eq_true] at he
      simp only [he, Bool.false_eq_true, if_neg, if_false] at h
      cases h
      rfl

-- ===== signal-path composite lemmas =====

theorem handle_sigtrap_ok (info : siginfo_t) (st st2 : Dbg)
    (h : handle_sigtrap info st = Except.ok st2) :
    st2.m_breakpoints = st.m_breakpoints ∧ st2.m_dwarf = st.m_dwarf ∧
    ∃ δ, st2.events = st.events ++ δ ∧ ∀ e ∈ δ, e.isPrint = true := by
  unfold handle_sigtrap at h
  by_cases h1 : info.si_code = SI_KERNEL ∨ info.si_code = TRAP_BRKPT
  · rw [if_pos h1] at h
    dsimp only at h
    split at h
    · exact absurd h (by simp)
    · rename_i it heq
      cases h
      refine ⟨rfl, rfl,
        [Event.printHit (get_pc (set_pc (pc_dec (get_pc st)) st)),
         Event.printSource it.entry.path it.entry.line], ?_, ?_⟩
      · simp [emit, set_pc]
      · intro e he
        simp only [List.mem_cons, List.mem_singleton] at he
        rcases he with he | he | he
        · rw [he]; rfl
        · rw [he]; rfl
        · cases he
  · rw [if_neg h1] at h
    by_cases h2 : info.si_code = TRAP_TRACE
    · rw [if_pos h2] at h
      cases h
      exact ⟨rfl, rfl, [], by simp, by simp⟩
    · rw [if_neg h2] at h
      cases h
      refine ⟨rfl, rfl, [Event.printUnknownTrap info.si_code], by simp [emit], ?_⟩
      intro e he
      simp only [List.mem_singleton] at he
      rw [he]
      rfl

theorem wait_for_signal_ok (st st2 : Dbg)
    (h : wait_for_signal st = Except.ok st2) :
    st2.m_breakpoints = st.m_breakpoints ∧ st2.m_dwarf = st.m_dwarf ∧
    ∃ δ, st2.events = st.events ++ Event.waited :: δ ∧ ∀ e ∈ δ, e.isPrint = true := by
  unfold wait_for_signal at h
  dsimp only at h
  by_cases h1 : (emit Event.waited st).lastSig.si_signo = SIGTRAP
  · rw [if_pos h1] at h
    obtain ⟨hb, hd, δ, he, hp⟩ := handle_sigtrap_ok _ _ _ h
    refine ⟨hb, hd, δ, ?_, hp⟩
    rw [he]
    simp [emit]
  · rw [if_neg h1] at h
    by_cases h2 : (emit Event.waited st).lastSig.si_signo = SIGSEGV
    · rw [if_pos h2] at h
      cases h
      refine ⟨rfl, rfl, [Event.printSegfault ((emit Event.waited st).lastSig.si_code)], by simp [emit], ?_⟩
      intro e he
      simp only [List.mem_singleton] at he
      rw [he]
      rfl
    · rw [if_neg h2] at h
      cases h
      refine ⟨rfl, rfl, [Event.printSignal ((emit Event.waited st).lastSig.si_signo)], by simp [emit], ?_⟩
      intro e he
      simp only [List.mem_singleton] at he
      rw [he]
      rfl

theorem step_over_breakpoint_ok (K : KernelModel) (st st2 : Dbg)
    (h : step_over_breakpoint K st = Except.ok st2) :
    (∀ b, mapCount b st2.m_breakpoints = mapCount b st.m_breakpoints) ∧ st2.m_dwarf = st.m_dwarf := by
  unfold step_over_breakpoint at h
  split at h
  · split at h
    · cases h
      exact ⟨fun b => rfl, rfl⟩
    · rename_i bp
      split at h
      · cases hw : wait_for_signal (ptrace_resume K ResumeKind.stepK (bp_disable_at (get_pc st) st)) with
        | error e =>
          rw [hw] at h
          exact absurd h (by simp [Except.map])
        | ok w =>
          rw [hw] at h
          simp only [Except.map] at h
          cases h
          obtain ⟨hb, hd, _⟩ := wait_for_signal_ok _ _ hw
          constructor
          · intro b
            rw [bp_enable_at_count, congrArg (mapCount b) hb]
            exact bp_disable_at_count _ _ _
          · rw [bp_enable_at_dwarf, hd]
            exact bp_disable_at_dwarf _ _
      · cases h
        exact ⟨fun b => rfl, rfl⟩
  · cases h
    exact ⟨fun b => rfl, rfl⟩

theorem single_step_instruction_ok (K : KernelModel) (st st2 : Dbg)
    (h : single_step_instruction K st = Except.ok st2) :
    (∀ b, mapCount b st2.m_breakpoints = mapCount b st.m_breakpoints) ∧ st2.m_dwarf = st.m_dwarf := by
  unfold single_step_instruction at h
  obtain ⟨hb, hd, _⟩ := wait_for_signal_ok _ _ h
  exact ⟨fun b => congrArg (mapCount b) hb, hd⟩

theorem sswbc_ok (K : KernelModel) (st st2 : Dbg)
    (h : single_step_instruction_with_breakpoint_check K st = Except.ok st2) :
    (∀ b, mapCount b st2.m_breakpoints = mapCount b st.m_breakpoints) ∧ st2.m_dwarf = st.m_dwarf := by
  unfold single_step_instruction_with_breakpoint_check at h
  split at h
  · exact step_over_breakpoint_ok _ _ _ h
  · exact single_step_instruction_ok _ _ _ h

theorem continue_execution_ok (K : KernelModel) (st st2 : Dbg)
    (h : continue_execution K st = Except.ok st2) :
    (∀ b, mapCount b st2.m_breakpoints = mapCount b st.m_breakpoints) ∧ st2.m_dwarf = st.m_dwarf := by
  unfold continue_execution at h
  cases hs : step_over_breakpoint K st with
  | error e =>
    rw [hs] at h
    exact absurd h (by simp [Bind.bind, Except.bind])
  | ok st1 =>
    rw [hs] at h
    simp only [Bind.bind, Except.bind] at h
    obtain ⟨hb1, hd1⟩ := step_over_breakpoint_ok _ _ _ hs
    obtain ⟨hb2, hd2, _⟩ := wait_for_signal_ok _ _ h
    constructor
    · intro b
      rw [congrArg (mapCount b) hb2]
      exact hb1 b
    · rw [hd2]
      exact hd1

-- ===== claim C10 =====

/-- C10: when the breakpoint map holds a disabled breakpoint at the current
    pc, single_step_instruction_with_breakpoint_check is a complete no-op:
    no resume is issued and the engine and tracee state are returned
    unchanged. -/
theorem c10_sswbc_disabled_noop (K : KernelModel) (st : Dbg) (bp : breakpoint)
    (hl : mapLookup (get_pc st) st.m_breakpoints = some bp) (he : bp.enabled = false) :
    single_step_instruction_with_breakpoint_check K st = Except.ok st := by
  have hc : mapCount (get_pc st) st.m_breakpoints = true := (mapCount_iff _ _).2 ⟨bp, hl⟩
  unfold single_step_instruction_with_breakpoint_check
  rw [if_pos hc]
  unfold step_over_breakpoint
  rw [if_pos hc, hl]
  dsimp only
  rw [if_neg (by simp [he])]

/-- Witness for C10 at a concrete state with a disabled breakpoint under the
    pc. -/
theorem c10_witness :
    mapLookup (get_pc st10) st10.m_breakpoints = some bpOff ∧ bpOff.enabled = false ∧
    single_step_instruction_with_breakpoint_check K0 st10 = Except.ok st10 :=
  ⟨rfl, rfl, c10_sswbc_disabled_noop K0 st10 bpOff rfl rfl⟩

-- ===== claim C2 =====

/-- C2: with the current pc on an installed breakpoint, step_over_breakpoint
    is a no-op when the breakpoint is disabled, and otherwise performs
    exactly disable, single-step, wait, re-enable, leaving the breakpoint
    enabled in the map afterwards. -/
theorem c2_step_over_breakpoint_protocol (K : KernelModel) (st : Dbg) (bp : breakpoint)
    (hl : mapLookup (get_pc st) st.m_breakpoints = some bp) :
    (bp.enabled = false → step_over_breakpoint K st = Except.ok st) ∧
    (bp.enabled = true →
      step_over_breakpoint K st =
        (wait_for_signal (ptrace_resume K ResumeKind.stepK (bp_disable_at (get_pc st) st))).map
          (bp_enable_at (get_pc st)) ∧
      ∀ st2, step_over_breakpoint K st = Except.ok st2 →
        (∃ bp2, mapLookup (get_pc st) st2.m_breakpoints = some bp2 ∧ bp2.enabled = true) ∧
        ∃ δ, st2.events = st.events ++ [Event.bpDisabled (get_pc st), Event.resumeStep, Event.waited] ++
            δ ++ [Event.bpEnabled (get_pc st)] ∧ ∀ e ∈ δ, e.isPrint = true) := by
  have hc : mapCount (get_pc st) st.m_breakpoints = true := (mapCount_iff _ _).2 ⟨bp, hl⟩
  constructor
  · intro he
    unfold step_over_breakpoint
    rw [if_pos hc, hl]
    dsimp only
    rw [if_neg (by simp [he])]
  · intro he
    have heq : step_over_breakpoint K st =
        (wait_for_signal (ptrace_resume K ResumeKind.stepK (bp_disable_at (get_pc st) st))).map
          (bp_enable_at (get_pc st)) := by
      unfold step_over_breakpoint
      rw [if_pos hc, hl]
      dsimp only
      rw [if_pos he]
    refine ⟨heq, ?_⟩
    intro st2 h2
    rw [heq] at h2
    cases hw : wait_for_signal (ptrace_resume K ResumeKind.stepK (bp_disable_at (get_pc st) st)) with
    | error e =>
      rw [hw] at h2
      exact absurd h2 (by simp [Except.map])
    | ok w =>
      rw [hw] at h2
      simp only [Except.map] at h2
      cases h2
      have hlw : mapLookup (get_pc st) w.m_breakpoints = some { bp with enabled := false } := by
        obtain ⟨hb, _, _⟩ := wait_for_signal_ok _ _ hw
        rw [congrArg (mapLookup (get_pc st)) hb]
        show mapLookup (get_pc st) (bp_disable_at (get_pc st) st).m_breakpoints = _
        unfold bp_disable_at
        rw [hl]
        dsimp only
        rw [mapLookup_update_self, hl]
        rfl
      constructor
      · exact bp_enable_at_lookup_self _ _ _ hlw
      · obtain ⟨hb, hd, δ, hev, hp⟩ := wait_for_signal_ok _ _ hw
        refine ⟨δ, ?_, hp⟩
        rw [bp_enable_at_events _ _ _ hlw, hev]
        have h3 : (ptrace_resume K ResumeKind.stepK (bp_disable_at (get_pc st) st)).events =
            (st.events ++ [Event.bpDisabled (get_pc st)]) ++ [Event.resumeStep] := by
          rw [(ptrace_resume_fields K ResumeKind.stepK _).2.2, bp_disable_at_events _ _ _ hl]
        rw [h3]
        simp [List.append_assoc]

/-- Witness for C2 at a concrete state with an enabled breakpoint under the
    pc and the single-step oracle. -/
theorem c2_witness :
    mapLookup (get_pc st2) st2.m_breakpoints = some bpOn ∧ bpOn.enabled = true ∧
    step_over_breakpoint K0 st2 =
      (wait_for_signal (ptrace_resume K0 ResumeKind.stepK (bp_disable_at (get_pc st2) st2))).map
        (bp_enable_at (get_pc st2)) := by
  have h := c2_step_over_breakpoint_protocol K0 st2 bpOn rfl
  exact ⟨rfl, rfl, (h.2 rfl).1⟩

-- ===== claim C1 =====

theorem pc_dec_mod (x : Nat) : pc_dec x % wordMod = pc_dec x := by
  unfold pc_dec
  exact Nat.mod_mod_of_dvd _ dvd_rfl

theorem pc_dec_succ (a : Nat) (h : a + 1 < wordMod) : pc_dec (a + 1) = a := by
  unfold pc_dec wordMod at *
  omega

/-- C1: on a SIGTRAP whose si_code is SI_KERNEL or TRAP_BRKPT, handle_sigtrap
    decrements the pc by exactly one, so a pre-trap pc of breakpoint address
    plus one lands back on the breakpoint address, and it prints the source
    line for the fixed-up pc; on TRAP_TRACE it takes no action at all. -/
theorem c1_sigtrap_fixup (info : siginfo_t) (st st2 : Dbg)
    (h : handle_sigtrap info st = Except.ok st2) :
    ((info.si_code = SI_KERNEL ∨ info.si_code = TRAP_BRKPT) →
      get_pc st2 = pc_dec (get_pc st) ∧
      (∀ a, get_pc st = a + 1 → get_pc st < wordMod → get_pc st2 = a) ∧
      st2.m_breakpoints = st.m_breakpoints ∧
      ∃ it, get_line_entry_from_pc st.m_dwarf (pc_dec (get_pc st)) = Except.ok it ∧
        st2.events = st.events ++
          [Event.printHit (pc_dec (get_pc st)), Event.printSource it.entry.path it.entry.line]) ∧
    (info.si_code = TRAP_TRACE → st2 = st) := by
  have hpc1 : get_pc (emit (Event.printHit (get_pc (set_pc (pc_dec (get_pc st)) st)))
      (set_pc (pc_dec (get_pc st)) st)) = pc_dec (get_pc st) := by
    show get_pc (set_pc (pc_dec (get_pc st)) st) = pc_dec (get_pc st)
    rw [get_pc_set_pc]
    exact pc_dec_mod _
  constructor
  · intro h1
    unfold handle_sigtrap at h
    rw [if_pos h1] at h
    dsimp only at h
    split at h
    · exact absurd h (by simp)
    · rename_i it heq
      cases h
      have hfix : get_pc (emit (Event.printSource it.entry.path it.entry.line)
          (emit (Event.printHit (get_pc (set_pc (pc_dec (get_pc st)) st)))
            (set_pc (pc_dec (get_pc st)) st))) = pc_dec (get_pc st) := by
        show get_pc (set_pc (pc_dec (get_pc st)) st) = pc_dec (get_pc st)
        rw [get_pc_set_pc]
        exact pc_dec_mod _
      refine ⟨hfix, ?_, rfl, it, ?_, ?_⟩
      · intro a ha hlt
        rw [hfix, ha]
        exact pc_dec_succ a (ha ▸ hlt)
      · rw [hpc1] at heq
        exact heq
      · rw [show get_pc (set_pc (pc_dec (get_pc st)) st) = pc_dec (get_pc st) from by
          rw [get_pc_set_pc]; exact pc_dec_mod _]
        simp [emit, set_pc, List.append_assoc]
  · intro h2
    unfold handle_sigtrap at h
    have h1 : ¬ (info.si_code = SI_KERNEL ∨ info.si_code = TRAP_BRKPT) := by
      rw [h2]
      unfold SI_KERNEL TRAP_BRKPT TRAP_TRACE
      omega
    rw [if_neg h1, if_pos h2] at h
    cases h
    rfl

/-- Witness for C1: a trap at pc 0x1009 is fixed up to the breakpoint address
    0x1008. -/
theorem c1_witness :
    handle_sigtrap infoBrk st1009 = Except.ok c1res ∧ get_pc c1res = 0x1008 := by
  have h := c1_sigtrap_fixup infoBrk st1009 c1res rfl
  exact ⟨rfl, (h.1 (Or.inr rfl)).2.1 0x1008 rfl (by decide)⟩

-- ===== claim C5 =====

/-- C5 (code evidence): the dispatcher mis-routes the register and memory
    commands. A well-formed register read prints nothing and leaves the state
    untouched because the register branch only tests for the dump
    sub-command, and a well-formed memory read is captured by the misplaced
    top-level read arm, which treats the address argument as a register name
    and fails to find such a register. -/
theorem c5_register_memory_read_misrouted :
    handle_command K0 5 "register read rip" st0 = Except.ok st0 ∧
    handle_command K0 5 "memory read 0x400000" st0 =
      Except.error (DbgErr.unknownRegister "0x400000") :=
  ⟨rfl, rfl⟩

-- ===== claim C8 =====

/-- C8 (code evidence): a one-word line whose word is not a prefix of any of
    cont, break, step, next, finish or register reaches the misplaced read
    arm and indexes args[1] on a one-element argument list, out of bounds. -/
theorem c8_one_word_command_oob :
    handle_command K0 5 "quit" st0 = Except.error (DbgErr.oobIndex 1) := rfl

-- ===== claim C9 =====

theorem find?_append_eq {α : Type} (p : α → Bool) (l1 l2 : List α) :
    (l1 ++ l2).find? p = (match l1.find? p with
      | some x => some x
      | none => l2.find? p) := by
  induction l1 with
  | nil => simp
  | cons x l1 ih =>
    by_cases h : p x
    · simp [List.find?, h]
    · simp only [List.cons_append, List.find?, h]
      simpa [h] using ih

theorem sbsl_go_spec (line : Nat) (st : Dbg) (cus : List CompilationUnit) :
    sbsl_go line st cus = (match (list_concat (cus.map (fun cu => cu.lineTable))).find?
        (fun e => e.is_stmt && e.line == line) with
      | some e => set_breakpoint_at_address e.address st
      | none => st) := by
  induction cus with
  | nil => rfl
  | cons cu rest ih =>
    show (match cu.lineTable.find? (fun e => e.is_stmt && e.line == line) with
      | some e => set_breakpoint_at_address e.address st
      | none => sbsl_go line st rest) = _
    rw [ih]
    simp only [List.map_cons, list_concat, find?_append_eq]
    cases cu.lineTable.find? (fun e => e.is_stmt && e.line == line) <;> rfl

/-- C9: set_breakpoint_at_source_line never reads its file argument — the
    result is identical for any two file names — the chosen address is that
    of the first is_stmt entry with the requested line taking compilation
    units in order, and a call installs at most one new breakpoint. -/
theorem c9_sbsl_file_independent (f1 f2 : String) (n : Nat) (st : Dbg) :
    set_breakpoint_at_source_line f1 n st = set_breakpoint_at_source_line f2 n st ∧
    set_breakpoint_at_source_line f1 n st =
      (match (list_concat (st.m_dwarf.cus.map (fun cu => cu.lineTable))).find?
          (fun e => e.is_stmt && e.line == n) with
        | some e => set_breakpoint_at_address e.address st
        | none => st) ∧
    (∀ a, mapCount a (set_breakpoint_at_source_line f1 n st).m_breakpoints = true →
      mapCount a st.m_breakpoints = true ∨
      ∃ e, (list_concat (st.m_dwarf.cus.map (fun cu => cu.lineTable))).find?
          (fun e2 => e2.is_stmt && e2.line == n) = some e ∧ a = e.address) := by
  refine ⟨rfl, sbsl_go_spec n st st.m_dwarf.cus, ?_⟩
  intro a ha
  rw [show set_breakpoint_at_source_line f1 n st = sbsl_go n st st.m_dwarf.cus from rfl,
    sbsl_go_spec n st st.m_dwarf.cus] at ha
  cases hf : (list_concat (st.m_dwarf.cus.map (fun cu => cu.lineTable))).find?
      (fun e2 => e2.is_stmt && e2.line == n) with
  | none =>
    rw [hf] at ha
    exact Or.inl ha
  | some e =>
    rw [hf] at ha
    rw [set_breakpoint_at_address_count] at ha
    by_cases hae : a = e.address
    · exact Or.inr ⟨e, hf ▸ rfl, hae⟩
    · simp [hae] at ha
      exact Or.inl ha

/-- Witness for C9 at two distinct file names and a state where line 2
    resolves to address 0x1008. -/
theorem c9_witness :
    set_breakpoint_at_source_line "x.c" 2 st0 = set_breakpoint_at_source_line "y.c" 2 st0 ∧
    (mapCount 0x1008 st0.m_breakpoints = true ∨
      ∃ e, (list_concat (st0.m_dwarf.cus.map (fun cu => cu.lineTable))).find?
          (fun e2 => e2.is_stmt && e2.line == 2) = some e ∧ (0x1008 : Addr) = e.address) := by
  have h := c9_sbsl_file_independent "x.c" "y.c" 2 st0
  exact ⟨h.1, h.2.2 0x1008 (by decide)⟩

-- ===== claim C7 (corrected): errors escape the dispatch boundary =====

/-- C7 counterexample: with debug info under which the line lookup fails, the
    step command makes the prompt loop terminate with the propagated
    out-of-range error instead of reporting it and continuing with the next
    command. -/
theorem c7_counterexample :
    runLines K0 5 ["step", "cont"] stE =
      Except.error (DbgErr.outOfRange "cannot find line entry") ∧
    ∀ st2, runLines K0 5 ["step", "cont"] stE ≠ Except.ok st2 := by
  constructor
  · rfl
  · intro st2 h
    rw [show runLines K0 5 ["step", "cont"] stE =
      Except.error (DbgErr.outOfRange "cannot find line entry") from rfl] at h
    exact Except.noConfusion h

/-- C7 amended: an error raised inside handle_command, such as OutOfRange
    from the pc-to-line queries, is not caught at the dispatch boundary: it
    propagates out of the prompt loop, which processes no further input
    lines. -/
theorem c7_errors_propagate (K : KernelModel) (fuel : Nat) (l : String) (rest : List String)
    (st : Dbg) (e : DbgErr) (h : handle_command K fuel l st = Except.error e) :
    runLines K fuel (l :: rest) st = Except.error e := by
  unfold runLines
  rw [h]
  rfl

/-- Witness for the amended C7 at a concrete failing step command. -/
theorem c7_witness :
    runLines K0 5 ["step", "break 0x1000"] stE =
      Except.error (DbgErr.outOfRange "cannot find line entry") :=
  c7_errors_propagate K0 5 "step" ["break 0x1000"] stE _ rfl

-- ===== claim C4 =====

/-- C4: when the return address already carries a breakpoint, step_out just
    continues — installing nothing and removing nothing, so the breakpoint
    survives — and when it carries none, step_out installs one there,
    continues, removes exactly it, and restores the original breakpoint
    map. -/
theorem c4_step_out_return_breakpoint (K : KernelModel) (st : Dbg) :
    (mapCount (ret_addr st) st.m_breakpoints = true →
      step_out K st = continue_execution K st ∧
      ∀ st2, step_out K st = Except.ok st2 →
        mapCount (ret_addr st) st2.m_breakpoints = true ∧
        ∀ a, mapCount a st2.m_breakpoints = mapCount a st.m_breakpoints) ∧
    (mapCount (ret_addr st) st.m_breakpoints = false →
      step_out K st = Except.bind
        (continue_execution K (set_breakpoint_at_address (ret_addr st) st))
        (remove_breakpoint (ret_addr st)) ∧
      ∀ st2, step_out K st = Except.ok st2 →
        mapCount (ret_addr st) st2.m_breakpoints = false ∧
        ∀ a, mapCount a st2.m_breakpoints = mapCount a st.m_breakpoints) := by
  constructor
  · intro h
    have h2 : mapCount (read_memory ((get_register_value st.tracee reg.rbp + 8) % wordMod) st)
        st.m_breakpoints = true := h
    have heq : step_out K st = continue_execution K st := by
      unfold step_out
      rw [if_pos h2]
    refine ⟨heq, ?_⟩
    intro st2 hok
    rw [heq] at hok
    obtain ⟨hb, _⟩ := continue_execution_ok _ _ _ hok
    exact ⟨(hb (ret_addr st)).trans h, hb⟩
  · intro h
    have h2 : mapCount (read_memory ((get_register_value st.tracee reg.rbp + 8) % wordMod) st)
        st.m_breakpoints = false := h
    have heq : step_out K st = Except.bind
        (continue_execution K (set_breakpoint_at_address (ret_addr st) st))
        (remove_breakpoint (ret_addr st)) := by
      unfold step_out
      rw [if_neg (by simp [h2])]
      rfl
    refine ⟨heq, ?_⟩
    intro st2 hok
    rw [heq] at hok
    cases hc : continue_execution K (set_breakpoint_at_address (ret_addr st) st) with
    | error e =>
      rw [hc] at hok
      exact absurd hok (by simp [Except.bind])
    | ok w =>
      rw [hc] at hok
      simp only [Except.bind] at hok
      obtain ⟨hbw, _⟩ := continue_execution_ok _ _ _ hc
      have hrem := remove_breakpoint_ok_count _ _ _ hok
      have hall : ∀ a, mapCount a st2.m_breakpoints = mapCount a st.m_breakpoints := by
        intro a
        rw [hrem a, hbw a, set_breakpoint_at_address_count]
        by_cases hae : a = ret_addr st
        · subst hae
          simp [h]
        · simp [hae]
      refine ⟨?_, hall⟩
      rw [hall (ret_addr st)]
      exact h

/-- Witness for C4: in the concrete state the return address 0x2000 has no
    breakpoint, and step_out restores the empty map. -/
theorem c4_witness :
    mapCount (ret_addr st0) st0.m_breakpoints = false ∧
    step_out K0 st0 = Except.ok c4fin ∧
    mapCount (ret_addr st0) c4fin.m_breakpoints = false := by
  have h := ((c4_step_out_return_breakpoint K0 st0).2 rfl).2 c4fin rfl
  exact ⟨rfl, rfl, h.1⟩

-- ===== claim C6 =====

theorem step_in_loop_ok (K : KernelModel) (fuel line : Nat) (st st1 : Dbg)
    (h : step_in_loop K fuel line st = Except.ok st1) :
    (∃ n, sswbc_iter K n st = Except.ok st1) ∧
    st1.m_dwarf = st.m_dwarf ∧
    ∃ it, get_line_entry_from_pc st1.m_dwarf (get_pc st1) = Except.ok it ∧
      it.entry.line ≠ line := by
  induction fuel generalizing st with
  | zero => exact absurd h (by simp [step_in_loop])
  | succ fuel ih =>
    unfold step_in_loop at h
    cases hle : get_line_entry_from_pc st.m_dwarf (get_pc st) with
    | error e =>
      rw [hle] at h
      exact absurd h (by simp [Bind.bind, Except.bind])
    | ok it =>
      rw [hle] at h
      simp only [Bind.bind, Except.bind] at h
      by_cases heq2 : it.entry.line = line
      · rw [if_pos heq2] at h
        cases hs : single_step_instruction_with_breakpoint_check K st with
        | error e =>
          rw [hs] at h
          exact absurd h (by simp [Bind.bind, Except.bind])
        | ok w =>
          rw [hs] at h
          simp only [Bind.bind, Except.bind] at h
          obtain ⟨⟨n, hn⟩, hd, hex⟩ := ih w h
          refine ⟨⟨n + 1, ?_⟩, ?_, hex⟩
          · unfold sswbc_iter
            rw [hs]
            simpa [Bind.bind, Except.bind] using hn
          · rw [hd]
            exact (sswbc_ok _ _ _ hs).2
      · rw [if_neg heq2] at h
        cases h
        exact ⟨⟨0, rfl⟩, rfl, it, hle, heq2⟩

/-- C6: when step_in returns, the line of the line-table entry for the final
    pc differs from the line at entry (a changed-line predicate, not an
    increased-line one), and the tracee was advanced purely by iterating
    single_step_instruction_with_breakpoint_check. -/
theorem c6_step_in_line_changed (K : KernelModel) (fuel : Nat) (st st2 : Dbg)
    (h : step_in K fuel st = Except.ok st2) :
    ∃ it0 itf st1 n,
      get_line_entry_from_pc st.m_dwarf (get_pc st) = Except.ok it0 ∧
      sswbc_iter K n st = Except.ok st1 ∧
      get_line_entry_from_pc st.m_dwarf (get_pc st1) = Except.ok itf ∧
      itf.entry.line ≠ it0.entry.line ∧
      st2 = emit (Event.printSource itf.entry.path itf.entry.line) st1 := by
  unfold step_in at h
  cases h0 : get_line_entry_from_pc st.m_dwarf (get_pc st) with
  | error e =>
    rw [h0] at h
    exact absurd h (by simp [Bind.bind, Except.bind])
  | ok it0 =>
    rw [h0] at h
    simp only [Bind.bind, Except.bind] at h
    cases hl : step_in_loop K fuel it0.entry.line st with
    | error e =>
      rw [hl] at h
      exact absurd h (by simp [Bind.bind, Except.bind])
    | ok st1 =>
      rw [hl] at h
      simp only [Bind.bind, Except.bind] at h
      obtain ⟨⟨n, hn⟩, hd, itf, hitf, hne⟩ := step_in_loop_ok _ _ _ _ _ hl
      rw [hitf] at h
      simp only [pure, Except.pure] at h
      cases h
      rw [hd] at hitf
      exact ⟨it0, itf, st1, n, rfl, hn, hitf, hne, rfl⟩

/-- Witness for C6: stepping from line 1 at pc 0x1000 under the single-step
    oracle stops at line 2. -/
theorem c6_witness :
    step_in K0 20 st0 = Except.ok c6fin ∧
    ∃ it0 itf st1 n,
      get_line_entry_from_pc st0.m_dwarf (get_pc st0) = Except.ok it0 ∧
      sswbc_iter K0 n st0 = Except.ok st1 ∧
      get_line_entry_from_pc st0.m_dwarf (get_pc st1) = Except.ok itf ∧
      itf.entry.line ≠ it0.entry.line ∧
      c6fin = emit (Event.printSource itf.entry.path itf.entry.line) st1 :=
  ⟨rfl, c6_step_in_line_changed K0 20 st0 c6fin rfl⟩

-- ===== claim C3: loop invariants =====

theorem installLoop_spec (fe sa : Addr) :
    ∀ (entries : List line_entry) (st : Dbg) (acc : List Addr),
      ∃ δ : List Addr,
        (installLoop entries fe sa st acc).2 = acc ++ δ ∧
        (∀ a, a ∈ δ ↔ (a ∈ (entries.takeWhile (fun e2 => decide (e2.address < fe))).map
            line_entry.address ∧ a ≠ sa ∧ mapCount a st.m_breakpoints = false)) ∧
        δ.Nodup ∧
        (∀ b, mapCount b (installLoop entries fe sa st acc).1.m_breakpoints =
          (mapCount b st.m_breakpoints || decide (b ∈ δ))) ∧
        (installLoop entries fe sa st acc).1.tracee.regs = st.tracee.regs ∧
        (∀ x, x ∉ (entries.takeWhile (fun e2 => decide (e2.address < fe))).map
            line_entry.address →
          (installLoop entries fe sa st acc).1.tracee.mem x = st.tracee.mem x) := by
  intro entries
  induction entries with
  | nil =>
    intro st acc
    exact ⟨[], by simp [installLoop], by simp, List.nodup_nil,
      by simp [installLoop], rfl, fun x _ => rfl⟩
  | cons e rest ih =>
    intro st acc
    by_cases he : e.address < fe
    · have hTW : (e :: rest).takeWhile (fun e2 => decide (e2.address < fe)) =
          e :: rest.takeWhile (fun e2 => decide (e2.address < fe)) := by
        rw [List.takeWhile_cons, if_pos (by simp [he])]
      by_cases hcond : e.address ≠ sa ∧ mapCount e.address st.m_breakpoints = false
      · have hstep : installLoop (e :: rest) fe sa st acc =
            installLoop rest fe sa (set_breakpoint_at_address e.address st)
              (acc ++ [e.address]) := by
          unfold installLoop
          rw [if_pos he, if_pos hcond]
          conv_lhs => rw [installLoop.eq_def]
        obtain ⟨δ, h2, hmem, hnd, hcnt, hregs, hmemx⟩ :=
          ih (set_breakpoint_at_address e.address st) (acc ++ [e.address])
        refine ⟨e.address :: δ, ?_, ?_, ?_, ?_, ?_, ?_⟩
        · rw [hstep, h2]
          simp
        · intro a
          rw [hTW]
          constructor
          · intro ha
            rcases List.mem_cons.1 ha with ha | ha
            · subst ha
              exact ⟨by simp, hcond.1, hcond.2⟩
            · obtain ⟨htail, hsa, hc⟩ := (hmem a).1 ha
              rw [set_breakpoint_at_address_count] at hc
              have hc2 : mapCount a st.m_breakpoints = false := by
                cases hd : decide (a = e.address) <;> rw [hd] at hc <;> simp_all
              exact ⟨by simp [htail], hsa, hc2⟩
          · rintro ⟨hm, hsa, hc⟩
            simp only [List.map_cons, List.mem_cons] at hm
            by_cases hae : a = e.address
            · exact List.mem_cons.2 (Or.inl hae)
            · rcases hm with hm | hm
              · exact absurd hm hae
              · refine List.mem_cons.2 (Or.inr ((hmem a).2 ⟨hm, hsa, ?_⟩))
                rw [set_breakpoint_at_address_count]
                simp [hae, hc]
        · refine List.nodup_cons.2 ⟨?_, hnd⟩
          intro hin
          obtain ⟨_, _, hc⟩ := (hmem e.address).1 hin
          rw [set_breakpoint_at_address_count] at hc
          simp at hc
        · intro b
          rw [hstep] at *
          rw [hcnt b, set_breakpoint_at_address_count]
          by_cases hb : b = e.address <;> by_cases hbd : b ∈ δ <;> simp [hb, hbd]
        · rw [hstep, hregs]
          rfl
        · intro x hx
          rw [hTW] at hx
          simp only [List.map_cons, List.mem_cons] at hx
          push_neg at hx
          rw [hstep, hmemx x (by simpa using hx.2)]
          exact set_breakpoint_at_address_mem_ne e.address x st hx.1
      · have hstep : installLoop (e :: rest) fe sa st acc = installLoop rest fe sa st acc := by
          unfold installLoop
          rw [if_pos he, if_neg hcond]
          conv_lhs => rw [installLoop.eq_def]
        obtain ⟨δ, h2, hmem, hnd, hcnt, hregs, hmemx⟩ := ih st acc
        refine ⟨δ, ?_, ?_, hnd, ?_, ?_, ?_⟩
        · rw [hstep, h2]
        · intro a
          rw [hTW]
          constructor
          · intro ha
            obtain ⟨htail, hsa, hc⟩ := (hmem a).1 ha
            exact ⟨by simp [htail], hsa, hc⟩
          · rintro ⟨hm, hsa, hc⟩
            simp only [List.map_cons, List.mem_cons] at hm
            rcases hm with hm | hm
            · subst hm
              exact absurd ⟨hsa, hc⟩ hcond
            · exact (hmem a).2 ⟨hm, hsa, hc⟩
        · intro b
          rw [hstep]
          exact hcnt b
        · rw [hstep]
          exact hregs
        · intro x hx
          rw [hTW] at hx
          simp only [List.map_cons, List.mem_cons] at hx
          push_neg at hx
          rw [hstep]
          exact hmemx x (by simpa using hx.2)
    · have hstep : installLoop (e :: rest) fe sa st acc = (st, acc) := by
        unfold installLoop
        rw [if_neg he]
      have hTW : (e :: rest).takeWhile (fun e2 => decide (e2.address < fe)) = [] := by
        rw [List.takeWhile_cons, if_neg (by simp [he])]
      refine ⟨[], by simp [hstep], ?_, List.nodup_nil, by simp [hstep], by rw [hstep],
        fun x _ => by rw [hstep]⟩
      intro a
      rw [hTW]
      simp

theorem remove_all_ok_count (l : List Addr) :
    ∀ (st st2 : Dbg), remove_all l st = Except.ok st2 →
      ∀ b, mapCount b st2.m_breakpoints =
        (mapCount b st.m_breakpoints && !decide (b ∈ l)) := by
  induction l with
  | nil =>
    intro st st2 h b
    cases h
    simp
  | cons a rest ih =>
    intro st st2 h b
    unfold remove_all at h
    cases hr : remove_breakpoint a st with
    | error e =>
      rw [hr] at h
      exact absurd h (by simp [Bind.bind, Except.bind])
    | ok w =>
      rw [hr] at h
      simp only [Bind.bind, Except.bind] at h
      rw [ih w st2 h b, remove_breakpoint_ok_count a st w hr b]
      by_cases h1 : b = a <;> by_cases h2 : b ∈ rest <;> simp [h1, h2]

/-- C3: when step_over succeeds, the final breakpoint map has exactly the
    keys it started with, and the temporary to_delete list is exactly the
    line-table addresses of the enclosing function's range that differ from
    the current line's address and had no breakpoint, plus the return
    address when it had none. -/
theorem c3_step_over_no_leaks (K : KernelModel) (st stMid st2 : Dbg) (td : List Addr)
    (hcore : step_over_core K st = Except.ok (stMid, td))
    (hso : step_over K st = Except.ok st2)
    (hsep : ret_slot st ∉ (segment_entries st).map line_entry.address) :
    (∀ a, mapCount a st2.m_breakpoints = mapCount a st.m_breakpoints) ∧
    (∀ a, a ∈ td ↔
      ((a ∈ (segment_entries st).map line_entry.address ∧ a ≠ start_addr st ∧
          mapCount a st.m_breakpoints = false) ∨
        (a = ret_addr st ∧ mapCount (ret_addr st) st.m_breakpoints = false))) := by
  unfold step_over at hso
  rw [hcore] at hso
  simp only [Bind.bind, Except.bind] at hso
  unfold step_over_core at hcore
  cases hfn : get_function_from_pc st.m_dwarf (get_pc st) with
  | error e =>
    rw [hfn] at hcore
    exact absurd hcore (by simp [Bind.bind, Except.bind])
  | ok func =>
  rw [hfn] at hcore
  simp only [Bind.bind, Except.bind] at hcore
  cases hit : get_line_entry_from_pc st.m_dwarf func.low_pc with
  | error e =>
    rw [hit] at hcore
    exact absurd hcore (by simp [Bind.bind, Except.bind])
  | ok it =>
  rw [hit] at hcore
  simp only [Bind.bind, Except.bind] at hcore
  cases hst : get_line_entry_from_pc st.m_dwarf (get_pc st) with
  | error e =>
    rw [hst] at hcore
    exact absurd hcore (by simp [Bind.bind, Except.bind])
  | ok startIt =>
  rw [hst] at hcore
  simp only [Bind.bind, Except.bind] at hcore
  obtain ⟨δ, hδacc, hδmem, hδnd, hδcnt, hδregs, hδmem2⟩ :=
    installLoop_spec func.high_pc startIt.entry.address (it.table.drop it.idx) st []
  have hseg : segment_entries st =
      (it.table.drop it.idx).takeWhile (fun e2 => decide (e2.address < func.high_pc)) := by
    unfold segment_entries
    rw [hfn]
    dsimp only
    rw [hit]
  have hstart : start_addr st = startIt.entry.address := by
    unfold start_addr
    rw [hst]
  have hslot : (get_register_value
      (installLoop (it.table.drop it.idx) func.high_pc startIt.entry.address st []).1.tracee
        reg.rbp + 8) % wordMod = ret_slot st := by
    unfold ret_slot get_register_value
    rw [show (installLoop (it.table.drop it.idx) func.high_pc startIt.entry.address
      st []).1.tracee.regs = st.tracee.regs from hδregs]
  have hretv : read_memory (ret_slot st)
      (installLoop (it.table.drop it.idx) func.high_pc startIt.entry.address st []).1 =
      ret_addr st := by
    unfold read_memory ret_addr
    refine hδmem2 (ret_slot st) ?_
    rw [← hseg]
    exact hsep
  rw [hslot, hretv] at hcore
  rw [List.nil_append] at hδacc
  by_cases hcnt : mapCount (ret_addr st)
      (installLoop (it.table.drop it.idx) func.high_pc startIt.entry.address
        st []).1.m_breakpoints = true
  · rw [if_pos hcnt] at hcore
    cases hc : continue_execution K
        (installLoop (it.table.drop it.idx) func.high_pc startIt.entry.address st []).1 with
    | error e =>
      rw [hc] at hcore
      exact absurd hcore (by simp [Bind.bind, Except.bind])
    | ok w =>
      rw [hc] at hcore
      simp only [Bind.bind, Except.bind, pure, Except.pure] at hcore
      cases hcore
      -- stMid = w, td = loop result = δ
      rw [hδacc] at hso
      have hretδ : mapCount (ret_addr st) st.m_breakpoints = false → ret_addr st ∈ δ := by
        intro h0
        rw [hδcnt (ret_addr st), h0, Bool.false_or] at hcnt
        simpa using hcnt
      constructor
      · intro b
        rw [remove_all_ok_count _ _ _ hso b, (continue_execution_ok _ _ _ hc).1 b, hδcnt b]
        by_cases hbδ : b ∈ δ
        · obtain ⟨_, _, hb0⟩ := (hδmem b).1 hbδ
          simp [hbδ, hb0]
        · simp [hbδ]
      · intro a
        rw [hδacc, hseg, hstart]
        constructor
        · intro ha
          exact Or.inl ((hδmem a).1 ha)
        · rintro (ha | ⟨haeq, ha0⟩)
          · exact (hδmem a).2 ha
          · subst haeq
            exact hretδ ha0
  · rw [if_neg hcnt] at hcore
    simp only [Bool.not_eq_true] at hcnt
    have hret0 : mapCount (ret_addr st) st.m_breakpoints = false ∧ ret_addr st ∉ δ := by
      rw [hδcnt (ret_addr st)] at hcnt
      constructor
      · cases h0 : mapCount (ret_addr st) st.m_breakpoints
        · rfl
        · rw [h0] at hcnt
          simp at hcnt
      · intro hin
        rw [decide_eq_true hin] at hcnt
        simp at hcnt
    cases hc : continue_execution K (set_breakpoint_at_address (ret_addr st)
        (installLoop (it.table.drop it.idx) func.high_pc startIt.entry.address st []).1) with
    | error e =>
      rw [hc] at hcore
      exact absurd hcore (by simp [Bind.bind, Except.bind])
    | ok w =>
      rw [hc] at hcore
      simp only [Bind.bind, Except.bind, pure, Except.pure] at hcore
      cases hcore
      rw [hδacc] at hso
      constructor
      · intro b
        rw [remove_all_ok_count _ _ _ hso b, (continue_execution_ok _ _ _ hc).1 b,
          set_breakpoint_at_address_count, hδcnt b]
        by_cases hb1 : b = ret_addr st
        · subst hb1
          simp [hret0.1, hret0.2]
        · by_cases hbδ : b ∈ δ
          · obtain ⟨_, _, hb0⟩ := (hδmem b).1 hbδ
            simp [hb1, hbδ, hb0]
          · simp [hb1, hbδ]
      · intro a
        rw [hδacc, hseg, hstart, List.mem_append, List.mem_singleton]
        constructor
        · rintro (ha | ha)
          · exact Or.inl ((hδmem a).1 ha)
          · exact Or.inr ⟨ha, hret0.1⟩
        · rintro (ha | ⟨haeq, _⟩)
          · exact Or.inl ((hδmem a).2 ha)
          · exact Or.inr haeq

/-- Witness for C3 at the concrete program: step_over installs temporaries at
    0x1008, 0x1010 and the return address 0x2000, removes them all, and the
    breakpoint map ends as it began. -/
theorem c3_witness :
    step_over_core K0 st0 = Except.ok (c3core.1, c3core.2) ∧
    step_over K0 st0 = Except.ok c3fin ∧
    ret_slot st0 ∉ (segment_entries st0).map line_entry.address ∧
    (∀ a, mapCount a c3fin.m_breakpoints = mapCount a st0.m_breakpoints) := by
  have h := c3_step_over_no_leaks K0 st0 c3core.1 c3fin c3core.2 rfl rfl (by decide)
  exact ⟨rfl, rfl, by decide, h.1⟩
